import Mathlib

/-!
Shallow embedding of the pyrobbot voice-chat engine and of its token-usage
ledger, with theorems checking the natural-language specification against
the code.

Strings from the Python source are modelled as `List Char`; Python floats
that carry durations, timestamps and monetary costs are modelled as exact
rationals (`ℚ`); SQLite tables are modelled as lists of rows.
-/

namespace Pyrobbot

/-! ## Basic string helpers (Python `str.strip`, `str.endswith`, indexing) -/

/-- Python `str.lstrip()`: drop leading whitespace. -/
def lstrip (s : List Char) : List Char := s.dropWhile Char.isWhitespace

/-- Python `str.rstrip()`: drop trailing whitespace. -/
def rstrip (s : List Char) : List Char :=
  (s.reverse.dropWhile Char.isWhitespace).reverse

/-- Python `str.strip()`: drop leading and trailing whitespace. -/
def strip (s : List Char) : List Char := rstrip (lstrip s)

/-- Python `s.endswith(c)` for a single character. -/
def endsWithChar (s : List Char) (c : Char) : Bool := s.getLast? == some c

/-- Python `s.endswith(("?", "!", "."))` as used in `VoiceChat.answer_question`. -/
def endsWithTerminator (s : List Char) : Bool :=
  endsWithChar s '?' || endsWithChar s '!' || endsWithChar s '.'

/-- Python `s[-2]` as an option (an out-of-range index raises `IndexError`,
which the source suppresses). -/
def secondLast (s : List Char) : Option Char :=
  match s.reverse with
  | _ :: c :: _ => some c
  | _ => none

/-- The digit test `sentence_for_tts.strip()[-2].isdigit()` of
`VoiceChat.answer_question`, with a suppressed `IndexError` giving `false`
(the code then falls through and emits the sentence). -/
def digitAtSecondLast (s : List Char) : Bool :=
  match secondLast s with
  | some c => c.isDigit
  | none => false

/-! ## The streamed-reply chunker of `VoiceChat.answer_question` -/

/-- `chunk_type` of an answer chunk (`"text"` or `"code"`). -/
inductive ChunkType
  | text
  | code
deriving DecidableEq, Repr

/-- One chunk yielded by `respond_user_prompt`. -/
structure AnswerChunk where
  chunk_type : ChunkType
  content : List Char
deriving DecidableEq, Repr

/-- Convenience constructor for a text chunk. -/
def textChunk (s : String) : AnswerChunk := ⟨ChunkType.text, s.toList⟩

/-- One loop iteration of `VoiceChat.answer_question` restricted to its
TTS-accumulation effect: given the current `sentence_for_tts` buffer and the
incoming chunk, return the new buffer and the sentence put on
`tts_conversion_queue`, if any.  Mirrors lines 181-194 of
`pyrobbot/voice_chat.py`. -/
def ttsStep (reply_only_as_text : Bool) (sentence_for_tts : List Char)
    (chunk : AnswerChunk) : List Char × Option (List Char) :=
  if chunk.chunk_type = ChunkType.text ∧ reply_only_as_text = false then
    let buf := sentence_for_tts ++ chunk.content
    let stripd_chunk := strip chunk.content
    if endsWithTerminator stripd_chunk then
      if endsWithChar stripd_chunk '.' ∧ digitAtSecondLast (strip buf) then
        (buf, none)
      else ([], some buf)
    else (buf, none)
  else (sentence_for_tts, none)

/-- The sequence of puts `VoiceChat.answer_question` performs on
`tts_conversion_queue` when the interrupt/exit flags are never set, starting
from buffer `buf`: each emitted sentence as `some s`, and the final
end-of-reply sentinel as `none`. -/
def answerQuestionGo (reply_only_as_text : Bool) :
    List Char → List AnswerChunk → List (Option (List Char))
  | buf, [] =>
    (if buf ≠ [] ∧ reply_only_as_text = false then [some buf] else []) ++ [none]
  | buf, chunk :: rest =>
    match ttsStep reply_only_as_text buf chunk with
    | (buf2, some s) => some s :: answerQuestionGo reply_only_as_text buf2 rest
    | (buf2, none) => answerQuestionGo reply_only_as_text buf2 rest

/-- Puts of `VoiceChat.answer_question` on `tts_conversion_queue` for a full
uninterrupted reply stream. -/
def answer_question_puts (reply_only_as_text : Bool)
    (chunks : List AnswerChunk) : List (Option (List Char)) :=
  answerQuestionGo reply_only_as_text [] chunks

/-- Puts of `VoiceChat.answer_question` when `interrupt_reply` (or
`exit_chat`) is observed set at the `k`-th per-chunk check: the generator
stops before yielding chunk `k` and performs no further put (in particular no
sentinel).  `k ≥ chunks.length` means the flag is never observed during the
stream.  Mirrors lines 175-200 of `pyrobbot/voice_chat.py`. -/
def answerQuestionGoStop (reply_only_as_text : Bool) :
    Nat → List Char → List AnswerChunk → List (Option (List Char))
  | _, buf, [] =>
    (if buf ≠ [] ∧ reply_only_as_text = false then [some buf] else []) ++ [none]
  | 0, _, _ :: _ => []
  | k + 1, buf, chunk :: rest =>
    match ttsStep reply_only_as_text buf chunk with
    | (buf2, some s) => some s :: answerQuestionGoStop reply_only_as_text k buf2 rest
    | (buf2, none) => answerQuestionGoStop reply_only_as_text k buf2 rest

/-- Puts on `tts_conversion_queue` for a reply interrupted at check `k`. -/
def answer_question_puts_stop (reply_only_as_text : Bool) (k : Nat)
    (chunks : List AnswerChunk) : List (Option (List Char)) :=
  answerQuestionGoStop reply_only_as_text k [] chunks

/-- The sentences an uninterrupted reply sends for TTS conversion (the puts
without the end-of-reply sentinel). -/
def ttsSentences (reply_only_as_text : Bool)
    (chunks : List AnswerChunk) : List (List Char) :=
  (answer_question_puts reply_only_as_text chunks).filterMap id

/-- The last non-whitespace character of `s` strictly before its final
character: the "preceding non-whitespace character" that the specification's
decimal rule speaks about. -/
def precedingNonWsChar (s : List Char) : Option Char :=
  (s.dropLast.reverse.dropWhile Char.isWhitespace).head?

/-! ## The token-usage ledger (`chat_gpt/tokens.py`) -/

/-- One row of the SQLite table `token_costs`.  The `model` column is `TEXT`
and may hold SQL `NULL` (Python `None`), hence `Option String`; timestamps
and costs are Python floats, modelled as exact rationals. -/
structure TokenRow where
  timestamp : ℚ
  model : Option String
  n_input_tokens : ℤ
  n_output_tokens : ℤ
  cost_input_tokens : ℚ
  cost_output_tokens : ℚ
deriving DecidableEq, Repr

/-- The static price table `PRICE_PER_THOUSAND_TOKENS`: price per 1000
tokens, `(input, output)`, keyed by model (including the `None` key of the
Python dict). -/
def PRICE_PER_THOUSAND_TOKENS : List (Option String × ℚ × ℚ) :=
  [(some "gpt-3.5-turbo", (15 : ℚ) / 10000, (2 : ℚ) / 1000),
   (some "gpt-4", (3 : ℚ) / 100, (6 : ℚ) / 100),
   (some "text-embedding-ada-002", (1 : ℚ) / 10000, 0),
   (none, 0, 0)]

/-- `TokenUsageDatabase.token_price`: the per-token price map, obtained by
dividing each entry of `PRICE_PER_THOUSAND_TOKENS` by 1000.  A model absent
from the table has no entry (a Python dict lookup on it raises `KeyError`). -/
def token_price (model : Option String) : Option (ℚ × ℚ) :=
  (PRICE_PER_THOUSAND_TOKENS.lookup model).map fun p => (p.1 / 1000, p.2 / 1000)

/-- Result of one `insert_data` call: the updated table, or the `KeyError`
raised by `self.token_price[model]` when the model is not in the price map. -/
inductive InsertResult
  | ok (db : List TokenRow)
  | keyError
deriving DecidableEq, Repr

/-- `TokenUsageDatabase.insert_data(model, n_input_tokens, n_output_tokens)`
issued at time `timestamp`.  A `None` model returns immediately without
touching the table; `INSERT OR REPLACE` on the `timestamp` primary key
replaces any row carrying the same timestamp. -/
def insert_data (db : List TokenRow) (timestamp : ℚ) (model : Option String)
    (n_input_tokens n_output_tokens : ℤ) : InsertResult :=
  match model with
  | none => .ok db
  | some m =>
    match token_price (some m) with
    | none => .keyError
    | some (price_in, price_out) =>
      .ok ((db.filter fun r => r.timestamp != timestamp) ++
        [⟨timestamp, some m, n_input_tokens, n_output_tokens,
          (n_input_tokens : ℚ) * price_in, (n_output_tokens : ℚ) * price_out⟩])

/-- One `insert_data` request, with its wall-clock timestamp made explicit. -/
structure InsertReq where
  timestamp : ℚ
  model : String
  n_in : ℤ
  n_out : ℤ
deriving DecidableEq, Repr

/-- Perform a sequence of `insert_data` calls on an initial table. -/
def insertAll (db : List TokenRow) : List InsertReq → InsertResult
  | [] => .ok db
  | r :: rest =>
    match insert_data db r.timestamp (some r.model) r.n_in r.n_out with
    | .ok db2 => insertAll db2 rest
    | .keyError => .keyError

/-- Extract the table from an `InsertResult` (empty table on `keyError`). -/
def dbOf : InsertResult → List TokenRow
  | .ok db => db
  | .keyError => []

/-- One per-model summary row produced by `retrieve_sums_by_model`. -/
structure UsageSums where
  earliest_timestamp : ℚ
  n_input_tokens : ℤ
  n_output_tokens : ℤ
  cost_input_tokens : ℚ
  cost_output_tokens : ℚ
deriving DecidableEq, Repr

/-- SQL `MIN` over a column (the `GROUP BY` groups are never empty). -/
def minList (l : List ℚ) : ℚ :=
  match l with
  | [] => 0
  | t :: ts => ts.foldl min t

/-- The distinct model values present in the table, in first-appearance
order, as produced by `GROUP BY model`. -/
def modelsOf (db : List TokenRow) : List (Option String) :=
  (db.map (·.model)).dedup

/-- The aggregate `SELECT ... GROUP BY model` row for one model. -/
def sumsForModel (db : List TokenRow) (m : Option String) : UsageSums :=
  let rows := db.filter fun r => r.model == m
  { earliest_timestamp := minList (rows.map (·.timestamp))
    n_input_tokens := (rows.map (·.n_input_tokens)).sum
    n_output_tokens := (rows.map (·.n_output_tokens)).sum
    cost_input_tokens := (rows.map (·.cost_input_tokens)).sum
    cost_output_tokens := (rows.map (·.cost_output_tokens)).sum }

/-- `TokenUsageDatabase.retrieve_sums_by_model`: a summary row per distinct
model in the table. -/
def retrieve_sums_by_model (db : List TokenRow) :
    List (Option String × UsageSums) :=
  (modelsOf db).map fun m => (m, sumsForModel db m)

/-- Field-wise accumulation of one per-model summary into the running
`defaultdict(int)` of `retrieve_sums` — note that it also adds the
`earliest_timestamp` fields. -/
def addSums (acc s : UsageSums) : UsageSums :=
  { earliest_timestamp := acc.earliest_timestamp + s.earliest_timestamp
    n_input_tokens := acc.n_input_tokens + s.n_input_tokens
    n_output_tokens := acc.n_output_tokens + s.n_output_tokens
    cost_input_tokens := acc.cost_input_tokens + s.cost_input_tokens
    cost_output_tokens := acc.cost_output_tokens + s.cost_output_tokens }

/-- `TokenUsageDatabase.retrieve_sums`: accumulate every field of every
per-model summary, starting from zeros. -/
def retrieve_sums (db : List TokenRow) : UsageSums :=
  (retrieve_sums_by_model db).foldl (fun acc p => addSums acc p.2) ⟨0, 0, 0, 0, 0⟩

/-! ## The audio-history worker (`VoiceChat.handle_update_audio_history`) -/

/-- A pydub `AudioSegment`, abstracted to its duration (concatenation adds
durations). -/
structure AudioClip where
  duration_seconds : ℚ
deriving DecidableEq, Repr

/-- Observable actions of the audio-history worker, in program order. -/
inductive HistAction
  | attach_audio_path
  | export_mp3
  | publish (found : Bool)
deriving DecidableEq, Repr

/-- One iteration of `VoiceChat.handle_update_audio_history`: `some clip` is
a partial reply audio, `none` is the end-of-reply sentinel.  Returns the new
merge-buffer duration and the actions taken, in order: on a long-enough
merged reply the history row is updated, one MP3 is exported and its path is
published; on a too-short one only `None` is published.  The merge buffer is
reset to empty in both sentinel branches. -/
def audioHistoryStep (min_speech_duration_seconds : ℚ) (merged : ℚ) :
    Option AudioClip → ℚ × List HistAction
  | some clip => (merged + clip.duration_seconds, [])
  | none =>
    if merged < min_speech_duration_seconds then (0, [.publish false])
    else (0, [.attach_audio_path, .export_mp3, .publish true])

/-- Run the audio-history worker over a list of queue items, threading the
merge buffer and collecting the actions. -/
def audioHistoryRun (min_speech_duration_seconds : ℚ) :
    ℚ → List (Option AudioClip) → ℚ × List HistAction
  | merged, [] => (merged, [])
  | merged, item :: rest =>
    match audioHistoryStep min_speech_duration_seconds merged item with
    | (m2, acts) =>
      match audioHistoryRun min_speech_duration_seconds m2 rest with
      | (mf, acts2) => (mf, acts ++ acts2)

/-! ## The question listener (`VoiceChat.handle_question_listening`) -/

/-- What one listening iteration does with the captured utterance. -/
inductive QuestionOutcome
  | discarded
  | exit_request
  | enqueued (question : List Char)
  | ignored
deriving DecidableEq, Repr

/-- One iteration of `VoiceChat.handle_question_listening` after `listen()`
returned `audio`.  `min_speech_duration_seconds` is the configuration value
the specification names; the source instead compares against the local
constant `minimum_prompt_duration_seconds = 0.05` and never reads the
configuration value here.  `isExitStart` abstracts the
exit-expression prefix test and `stt` the speech-to-text call; the returned
boolean records whether speech-to-text was invoked at all. -/
def handle_question_step (min_speech_duration_seconds : ℚ)
    (isExitStart : List Char → Bool) (stt : AudioClip → List Char)
    (audio : AudioClip) : Bool × QuestionOutcome :=
  if audio.duration_seconds < (5 : ℚ) / 100 then (false, .discarded)
  else
    let question := stt audio
    if isExitStart question then (true, .exit_request)
    else if question ≠ [] then (true, .enqueued question)
    else (true, .ignored)

/-! ## The page-queue filter (`pyrobbot/app/app_utils.filter_page_info_from_queue`) -/

/-- One entry of the queue handled by `filter_page_info_from_queue`: the
entry's `["page"].page_id` plus its remaining data, abstracted. -/
structure PageQueueItem where
  page_id : String
  payload : ℕ
deriving DecidableEq, Repr

/-- The `while the_queue.queue:` loop: pop entries from the left, appending
matching ones to `items_from_page_queue` and the rest to
`queue_with_only_entries_from_other_pages`. -/
def filterPageLoop (app_page_id : String)
    (others mine : List PageQueueItem) :
    List PageQueueItem → List PageQueueItem × List PageQueueItem
  | [] => (others, mine)
  | item :: rest =>
    if item.page_id = app_page_id then
      filterPageLoop app_page_id others (mine ++ [item]) rest
    else
      filterPageLoop app_page_id (others ++ [item]) mine rest

/-- `filter_page_info_from_queue(app_page, the_queue)`: returns the new
contents of `the_queue` (entries of other pages) and the returned queue of
entries belonging to `app_page`. -/
def filter_page_info_from_queue (app_page_id : String)
    (the_queue : List PageQueueItem) :
    List PageQueueItem × List PageQueueItem :=
  filterPageLoop app_page_id [] [] the_queue

/-- The row that one `insert_data` call appends for a known model (`none`
when the model is missing from the price map). -/
def insertRow (r : InsertReq) : Option TokenRow :=
  (token_price (some r.model)).map fun p =>
    ⟨r.timestamp, some r.model, r.n_in, r.n_out,
      (r.n_in : ℚ) * p.1, (r.n_out : ℚ) * p.2⟩

/-- The insert requests that mention model `m`, in order. -/
def reqsFor (m : String) (reqs : List InsertReq) : List InsertReq :=
  reqs.filter fun r => r.model == m

end Pyrobbot

set_option maxRecDepth 4000

namespace Pyrobbot

/-! ## Lemmas about `strip` -/

theorem getLast?_strip (s : List Char) :
    (strip s).getLast?
      = ((s.dropWhile Char.isWhitespace).reverse.dropWhile Char.isWhitespace).head? := by
  simp only [strip, rstrip, lstrip]
  rw [List.getLast?_reverse]

theorem strip_ne_nil_iff (s : List Char) :
    strip s ≠ []
      ↔ (s.dropWhile Char.isWhitespace).reverse.dropWhile Char.isWhitespace ≠ [] := by
  simp only [strip, rstrip, lstrip]
  simp

/-- Appending in front of `b` does not change the last character of the
stripped text, provided `b` strips to something non-empty. -/
theorem strip_getLast?_append (a b : List Char) (h : strip b ≠ []) :
    (strip (a ++ b)).getLast? = (strip b).getLast? := by
  have hbd : (b.dropWhile Char.isWhitespace).reverse.dropWhile Char.isWhitespace ≠ [] :=
    (strip_ne_nil_iff b).mp h
  rw [getLast?_strip, getLast?_strip, List.dropWhile_append]
  by_cases ha : (List.dropWhile Char.isWhitespace a).isEmpty
  · rw [if_pos ha]
  · rw [if_neg ha]
    conv_lhs =>
      rw [← List.takeWhile_append_dropWhile Char.isWhitespace b,
        ← List.append_assoc, List.reverse_append, List.reverse_append]
    rw [List.dropWhile_append, if_neg (by simpa using hbd),
      List.head?_append_of_ne_nil _ hbd]

theorem endsWithTerminator_ne_nil {s : List Char}
    (h : endsWithTerminator s = true) : s ≠ [] := by
  intro hs
  subst hs
  simp [endsWithTerminator, endsWithChar] at h

/-! ## Claim C1 -/

/-- Claim C1, counterexample: the chunk stream `["3 ."]` is terminated by the
chunker at its final `'.'` and emitted as the sentence `"3 ."`, although the
preceding non-whitespace character of that `'.'` is the digit `'3'`.  (The
code inspects `sentence_for_tts.strip()[-2]`, which here is the space, not
the digit.)  So a `'.'` whose preceding NON-WHITESPACE character is a digit
can terminate a sentence. -/
theorem C1_counterexample :
    ttsSentences false [textChunk "3 ."] = ["3 .".toList] ∧
    endsWithChar ("3 .".toList) '.' = true ∧
    precedingNonWsChar ("3 .".toList) = some '3' ∧
    Char.isDigit '3' = true := by decide

/-- Claim C1 (amended): the chunker never terminates a sentence at a `'.'`
whose immediately preceding character in the whitespace-stripped buffer is a
digit: whenever the stripped accumulated buffer ends in `'.'` directly after
a digit, the iteration emits nothing.  For the chunk stream
`["The ratio is ", "3", ".", "14", " exactly."]` (and for the single-chunk
stream `"Pi is 3.14."`) exactly one sentence is emitted, equal to the full
concatenated text. -/
theorem C1_decimal_rule :
    (∀ (buf : List Char) (chunk : AnswerChunk),
      endsWithChar (strip (buf ++ chunk.content)) '.' = true →
      digitAtSecondLast (strip (buf ++ chunk.content)) = true →
      (ttsStep false buf chunk).2 = none) ∧
    ttsSentences false
        [textChunk "The ratio is ", textChunk "3", textChunk ".", textChunk "14",
         textChunk " exactly."]
      = ["The ratio is 3.14 exactly.".toList] ∧
    ttsSentences false [textChunk "Pi is 3.14."] = ["Pi is 3.14.".toList] := by
  refine ⟨?_, by decide, by decide⟩
  intro buf chunk hdot hdigit
  rcases chunk with ⟨ct, content⟩
  cases ct with
  | code => simp [ttsStep]
  | text =>
    simp only [ttsStep]
    rw [if_pos (by simp)]
    by_cases hterm : endsWithTerminator (strip content) = true
    · have hne : strip content ≠ [] := endsWithTerminator_ne_nil hterm
      have hlast := strip_getLast?_append buf content hne
      have hdot2 : endsWithChar (strip content) '.' = true := by
        simp only [endsWithChar] at hdot ⊢
        rw [← hlast]
        exact hdot
      rw [if_pos hterm, if_pos ⟨hdot2, hdigit⟩]
    · rw [if_neg hterm]

/-- Witness for the amended Claim C1: a buffer ending in `"3"` receiving the
chunk `"."` yields no sentence. -/
theorem C1_decimal_rule_witness :
    (ttsStep false ("It is 3".toList) (textChunk ".")).2 = none :=
  C1_decimal_rule.1 ("It is 3".toList) (textChunk ".") (by decide) (by decide)

/-! ## Claim C2 -/

theorem ttsStep_code (r : Bool) (buf : List Char) (chunk : AnswerChunk)
    (h : chunk.chunk_type = ChunkType.code) : ttsStep r buf chunk = (buf, none) := by
  simp [ttsStep, h]

theorem answerQuestionGo_filter_text (r : Bool) (buf : List Char)
    (chunks : List AnswerChunk) :
    answerQuestionGo r buf chunks
      = answerQuestionGo r buf
          (chunks.filter fun c => c.chunk_type == ChunkType.text) := by
  induction chunks generalizing buf with
  | nil => rfl
  | cons c rest ih =>
    cases hct : c.chunk_type with
    | text =>
      have hf : (c :: rest).filter (fun c => c.chunk_type == ChunkType.text)
          = c :: rest.filter (fun c => c.chunk_type == ChunkType.text) := by
        simp [List.filter, hct]
      rw [hf]
      rcases hstep : ttsStep r buf c with ⟨buf2, out⟩
      cases out with
      | some s => simp [answerQuestionGo, hstep, ih]
      | none => simp [answerQuestionGo, hstep, ih]
    | code =>
      have hf : (c :: rest).filter (fun c => c.chunk_type == ChunkType.text)
          = rest.filter (fun c => c.chunk_type == ChunkType.text) := by
        simp [List.filter, hct,
          (by decide : (ChunkType.code == ChunkType.text) = false)]
      rw [hf]
      simp [answerQuestionGo, ttsStep_code r buf c hct, ih]

/-- Claim C2: code chunks are invisible to the sentence chunker and to the
TTS-conversion queue: the whole put stream of `answer_question` (sentences
and sentinel), and hence the sentence stream, is unchanged when the code
chunks are removed from the reply — only text chunks are accumulated for
speech. -/
theorem C2_code_never_spoken (r : Bool) (chunks : List AnswerChunk) :
    answer_question_puts r chunks
        = answer_question_puts r
            (chunks.filter fun c => c.chunk_type == ChunkType.text) ∧
    ttsSentences r chunks
        = ttsSentences r (chunks.filter fun c => c.chunk_type == ChunkType.text) := by
  have h := answerQuestionGo_filter_text r [] chunks
  exact ⟨h, by simp [ttsSentences, answer_question_puts, h]⟩

/-! ## Claim C10 -/

theorem answerQuestionGoStop_count_none (r : Bool) (k : Nat) (buf : List Char)
    (chunks : List AnswerChunk) :
    ((answerQuestionGoStop r k buf chunks).count none)
      = if chunks.length ≤ k then 1 else 0 := by
  induction chunks generalizing k buf with
  | nil => by_cases h : buf ≠ [] ∧ r = false <;>
      simp [answerQuestionGoStop, h, List.count_cons]
  | cons c rest ih =>
    cases k with
    | zero => simp [answerQuestionGoStop]
    | succ k =>
      rcases hstep : ttsStep r buf c with ⟨buf2, out⟩
      have hlen : (c :: rest).length ≤ k + 1 ↔ rest.length ≤ k := by
        simp [Nat.succ_le_succ_iff]
      cases out with
      | some s =>
        simp [answerQuestionGoStop, hstep, List.count_cons, ih, hlen]
      | none =>
        simp [answerQuestionGoStop, hstep, ih, hlen]

theorem answerQuestionGoStop_of_length_le (r : Bool) (k : Nat) (buf : List Char)
    (chunks : List AnswerChunk) (h : chunks.length ≤ k) :
    answerQuestionGoStop r k buf chunks = answerQuestionGo r buf chunks := by
  induction chunks generalizing k buf with
  | nil => cases k <;> rfl
  | cons c rest ih =>
    cases k with
    | zero => simp at h
    | succ k =>
      have hk : rest.length ≤ k := by simpa [Nat.succ_le_succ_iff] using h
      rcases hstep : ttsStep r buf c with ⟨buf2, out⟩
      cases out with
      | some s => simp [answerQuestionGoStop, answerQuestionGo, hstep, ih _ _ hk]
      | none => simp [answerQuestionGoStop, answerQuestionGo, hstep, ih _ _ hk]

/-- Claim C10: the end-of-reply sentinel `none` is put on the TTS conversion
queue exactly once when the chunk stream is consumed to its natural end
(`chunks.length ≤ k`, i.e. the interrupt/exit flag is never observed set),
and zero times when the flag stops the generator mid-stream; an interrupted
run also performs a prefix of the puts only, never the sentinel. -/
theorem C10_sentinel_iff_natural_end (r : Bool) (chunks : List AnswerChunk)
    (k : Nat) :
    ((answer_question_puts_stop r k chunks).count none
        = if chunks.length ≤ k then 1 else 0) ∧
    (chunks.length ≤ k →
      answer_question_puts_stop r k chunks = answer_question_puts r chunks) ∧
    (answer_question_puts r chunks).count none = 1 := by
  refine ⟨answerQuestionGoStop_count_none r k [] chunks,
    fun h => answerQuestionGoStop_of_length_le r k [] chunks h, ?_⟩
  have h1 := answerQuestionGoStop_count_none r chunks.length [] chunks
  have h2 := answerQuestionGoStop_of_length_le r chunks.length [] chunks le_rfl
  rw [answer_question_puts, ← h2, h1, if_pos le_rfl]

/-- Witness for Claim C10: with one chunk, an uninterrupted run (`k = 5`)
puts the sentinel once, an immediately interrupted run (`k = 0`) never
does. -/
theorem C10_sentinel_iff_natural_end_witness :
    (answer_question_puts_stop false 5 [textChunk "Hi."]
        = answer_question_puts false [textChunk "Hi."]) ∧
    (answer_question_puts_stop false 0 [textChunk "Hi."]).count none = 0 := by
  constructor
  · exact (C10_sentinel_iff_natural_end false [textChunk "Hi."] 5).2.1 (by decide)
  · have h := (C10_sentinel_iff_natural_end false [textChunk "Hi."] 0).1
    simpa using h

/-! ## Claims C3, C6, C9: the token ledger -/

theorem insert_data_known (db : List TokenRow) (ts : ℚ) (m : String)
    (a b : ℤ) (p : ℚ × ℚ) (hp : token_price (some m) = some p) :
    insert_data db ts (some m) a b
      = .ok ((db.filter fun r => r.timestamp != ts)
          ++ [⟨ts, some m, a, b, (a : ℚ) * p.1, (b : ℚ) * p.2⟩]) := by
  rcases p with ⟨pin, pout⟩
  simp [insert_data, hp]

theorem filter_timestamp_fresh (db : List TokenRow) (ts : ℚ)
    (h : ∀ row ∈ db, row.timestamp ≠ ts) :
    (db.filter fun r => r.timestamp != ts) = db := by
  rw [List.filter_eq_self]
  intro r hr
  simpa using h r hr

theorem insertAll_cons_ok (r : InsertReq) (rest : List InsertReq)
    (db db2 : List TokenRow)
    (h : insert_data db r.timestamp (some r.model) r.n_in r.n_out = .ok db2) :
    insertAll db (r :: rest) = insertAll db2 rest := by
  simp [insertAll, h]

theorem insertRow_known (r : InsertReq) (p : ℚ × ℚ)
    (hp : token_price (some r.model) = some p) :
    insertRow r = some ⟨r.timestamp, some r.model, r.n_in, r.n_out,
      (r.n_in : ℚ) * p.1, (r.n_out : ℚ) * p.2⟩ := by
  simp [insertRow, hp]

/-- With pairwise-distinct fresh timestamps and all models in the price map,
a sequence of inserts appends exactly one row per request. -/
theorem insertAll_fresh_eq (reqs : List InsertReq) (db0 : List TokenRow)
    (hmap : ∀ r ∈ reqs, (token_price (some r.model)).isSome)
    (hfresh : ∀ r ∈ reqs, ∀ row ∈ db0, row.timestamp ≠ r.timestamp)
    (hdist : reqs.Pairwise fun x y => x.timestamp ≠ y.timestamp) :
    insertAll db0 reqs = .ok (db0 ++ reqs.filterMap insertRow) := by
  induction reqs generalizing db0 with
  | nil => simp [insertAll]
  | cons r rest ih =>
    obtain ⟨hhead, htail⟩ := List.pairwise_cons.mp hdist
    obtain ⟨p, hp⟩ := Option.isSome_iff_exists.mp (hmap r (by simp))
    have hins := insert_data_known db0 r.timestamp r.model r.n_in r.n_out p hp
    rw [filter_timestamp_fresh db0 r.timestamp
      (fun row hrow => hfresh r (by simp) row hrow)] at hins
    rw [insertAll_cons_ok r rest db0 _ hins]
    have hfresh2 : ∀ q ∈ rest, ∀ row ∈ db0 ++
        [(⟨r.timestamp, some r.model, r.n_in, r.n_out,
          (r.n_in : ℚ) * p.1, (r.n_out : ℚ) * p.2⟩ : TokenRow)],
        row.timestamp ≠ q.timestamp := by
      intro q hq row hrow
      rcases List.mem_append.mp hrow with hrow | hrow
      · exact hfresh q (by simp [hq]) row hrow
      · have hr : row = ⟨r.timestamp, some r.model, r.n_in, r.n_out,
            (r.n_in : ℚ) * p.1, (r.n_out : ℚ) * p.2⟩ := by simpa using hrow
        rw [hr]
        exact hhead q hq
    rw [ih _ (fun q hq => hmap q (by simp [hq])) hfresh2 htail,
      List.filterMap_cons, insertRow_known r p hp]
    simp

/-- The table rows carrying model `m` are exactly the rows generated by the
requests for `m`, each priced with `m`'s per-token price. -/
theorem filterMap_insertRow_filter_model (reqs : List InsertReq) (m : String)
    (pm : ℚ × ℚ) (hpm : token_price (some m) = some pm)
    (hmap : ∀ r ∈ reqs, (token_price (some r.model)).isSome) :
    (reqs.filterMap insertRow).filter (fun row => row.model == some m)
      = (reqsFor m reqs).map fun r =>
          (⟨r.timestamp, some m, r.n_in, r.n_out,
            (r.n_in : ℚ) * pm.1, (r.n_out : ℚ) * pm.2⟩ : TokenRow) := by
  induction reqs with
  | nil => simp [reqsFor]
  | cons r rest ih =>
    obtain ⟨p, hp⟩ := Option.isSome_iff_exists.mp (hmap r (by simp))
    have hrow := insertRow_known r p hp
    have ihr := ih (fun q hq => hmap q (by simp [hq]))
    by_cases hm : r.model = m
    · subst hm
      have hpp : p = pm := by
        rw [hp] at hpm
        exact Option.some.inj hpm
      subst hpp
      simp [List.filterMap_cons, hrow, reqsFor, List.filter_cons, ihr]
    · simp [List.filterMap_cons, hrow, reqsFor, List.filter_cons, hm, ihr,
        (by simp [hm] : (some r.model == some m) = false),
        (by simp [hm] : (r.model == m) = false)]

/-- Claim C3: for any sequence of inserts with pairwise-distinct timestamps
and models present in the static price table, the per-model sums returned by
`retrieve_sums_by_model` equal the arithmetic sums of the inserted token
counts, and the per-model costs equal the summed token counts times
`price_per_1000 / 1000`; in particular two inserts of
`(model="gpt-4", n_in=1000, n_out=500)` give overall sums
`n_in = 2000`, `n_out = 1000`, `cost_input = 0.06`, `cost_output = 0.06`. -/
theorem C3_ledger_round_trip :
    (∀ (reqs : List InsertReq) (m : String) (p1k : ℚ × ℚ),
      (∀ r ∈ reqs, (token_price (some r.model)).isSome) →
      reqs.Pairwise (fun x y => x.timestamp ≠ y.timestamp) →
      PRICE_PER_THOUSAND_TOKENS.lookup (some m) = some p1k →
      (sumsForModel (dbOf (insertAll [] reqs)) (some m)).n_input_tokens
          = ((reqsFor m reqs).map InsertReq.n_in).sum ∧
      (sumsForModel (dbOf (insertAll [] reqs)) (some m)).n_output_tokens
          = ((reqsFor m reqs).map InsertReq.n_out).sum ∧
      (sumsForModel (dbOf (insertAll [] reqs)) (some m)).cost_input_tokens
          = ((reqsFor m reqs).map fun r => (r.n_in : ℚ)).sum * (p1k.1 / 1000) ∧
      (sumsForModel (dbOf (insertAll [] reqs)) (some m)).cost_output_tokens
          = ((reqsFor m reqs).map fun r => (r.n_out : ℚ)).sum * (p1k.2 / 1000)) ∧
    retrieve_sums (dbOf (insertAll []
        [⟨1, "gpt-4", 1000, 500⟩, ⟨2, "gpt-4", 1000, 500⟩]))
      = ⟨1, 2000, 1000, (6 : ℚ) / 100, (6 : ℚ) / 100⟩ := by
  refine ⟨?_, by with_unfolding_all decide⟩
  intro reqs m p1k hmap hdist hlook
  have hpm : token_price (some m) = some (p1k.1 / 1000, p1k.2 / 1000) := by
    simp [token_price, hlook]
  rw [insertAll_fresh_eq reqs [] hmap (by simp) hdist]
  have hrows := filterMap_insertRow_filter_model reqs m
    (p1k.1 / 1000, p1k.2 / 1000) hpm hmap
  refine ⟨?_, ?_, ?_, ?_⟩ <;>
    simp [dbOf, sumsForModel, hrows, List.map_map, Function.comp_def,
      List.sum_map_mul_right]

/-- Witness for Claim C3: one insert for `gpt-4`. -/
theorem C3_ledger_round_trip_witness :
    (sumsForModel (dbOf (insertAll [] [⟨1, "gpt-4", 5, 7⟩]))
        (some "gpt-4")).n_input_tokens
      = ((reqsFor "gpt-4" [⟨1, "gpt-4", 5, 7⟩]).map InsertReq.n_in).sum :=
  (C3_ledger_round_trip.1 [⟨1, "gpt-4", 5, 7⟩] "gpt-4"
    ((3 : ℚ) / 100, (6 : ℚ) / 100)
    (by with_unfolding_all decide)
    (by simp)
    (by with_unfolding_all decide)).1

/-- Claim C6, counterexample: inserting a model that is not in the price map
does not record a zero-cost row — the lookup `self.token_price[model]`
raises `KeyError` and nothing is stored. -/
theorem C6_counterexample :
    insert_data [] 1 (some "unknown-model") 10 10 = InsertResult.keyError := by
  with_unfolding_all decide

/-- Claim C6 (amended): `insert_data` with a non-`None` model absent from
the price map raises `KeyError` and records nothing; a `None` model returns
without recording anything; only models present in the map are recorded
(with map-derived costs, per Claim C3). -/
theorem C6_unknown_model_key_error :
    (∀ (db : List TokenRow) (ts : ℚ) (m : String) (a b : ℤ),
      token_price (some m) = none →
      insert_data db ts (some m) a b = InsertResult.keyError) ∧
    (∀ (db : List TokenRow) (ts : ℚ) (a b : ℤ),
      insert_data db ts none a b = InsertResult.ok db) := by
  refine ⟨fun db ts m a b h => ?_, fun db ts a b => rfl⟩
  simp [insert_data, h]

/-- Witness for the amended Claim C6. -/
theorem C6_unknown_model_key_error_witness :
    insert_data [] 2 (some "not-a-model") 5 5 = InsertResult.keyError :=
  C6_unknown_model_key_error.1 [] 2 "not-a-model" 5 5
    (by with_unfolding_all decide)

theorem foldl_addSums_earliest (l : List (Option String × UsageSums))
    (z : UsageSums) :
    (l.foldl (fun acc p => addSums acc p.2) z).earliest_timestamp
      = z.earliest_timestamp + (l.map fun p => p.2.earliest_timestamp).sum := by
  induction l generalizing z with
  | nil => simp
  | cons p rest ih =>
    rw [List.foldl_cons, ih]
    simp [addSums, add_assoc]

/-- Claim C9: `retrieve_sums` adds up every field of the per-model
summaries, including `earliest_timestamp`; with rows for two models its
`earliest_timestamp` entry is the sum of the per-model minima (30 for
minima 10 and 20), not the overall earliest timestamp (10). -/
theorem C9_retrieve_sums_adds_min_timestamps :
    (∀ db : List TokenRow,
      (retrieve_sums db).earliest_timestamp
        = ((modelsOf db).map fun m => (sumsForModel db m).earliest_timestamp).sum) ∧
    (retrieve_sums (dbOf (insertAll []
        [⟨10, "gpt-4", 1, 1⟩, ⟨20, "gpt-3.5-turbo", 1, 1⟩]))).earliest_timestamp
      = 30 ∧
    minList ((dbOf (insertAll []
        [⟨10, "gpt-4", 1, 1⟩, ⟨20, "gpt-3.5-turbo", 1, 1⟩])).map
          TokenRow.timestamp) = 10 ∧
    (30 : ℚ) ≠ 10 := by
  refine ⟨?_, by with_unfolding_all decide, by with_unfolding_all decide,
    by with_unfolding_all decide⟩
  intro db
  rw [retrieve_sums, foldl_addSums_earliest]
  simp [retrieve_sums_by_model, List.map_map, Function.comp_def]

/-! ## Claim C4: the audio-history worker -/

theorem audioHistoryRun_clips (minDur merged : ℚ) (clips : List AudioClip)
    (rest : List (Option AudioClip)) :
    audioHistoryRun minDur merged (clips.map some ++ rest)
      = audioHistoryRun minDur
          (merged + (clips.map AudioClip.duration_seconds).sum) rest := by
  induction clips generalizing merged with
  | nil => simp
  | cons clip tail ih =>
    rw [List.map_cons, List.cons_append]
    show audioHistoryRun minDur (merged + clip.duration_seconds)
        (tail.map some ++ rest) = _
    rw [ih, List.map_cons, List.sum_cons, ← add_assoc]

/-- Claim C4: after a reply's audio chunks followed by the end-of-reply
sentinel, the worker writes exactly one MP3 and attaches/publishes its path
iff the merged duration reaches `min_speech_duration_seconds`; below the
threshold it writes no file and publishes `None`; the merge buffer is reset
to zero either way. -/
theorem C4_audio_history_threshold (minDur : ℚ) (clips : List AudioClip) :
    audioHistoryRun minDur 0 (clips.map some ++ [none])
      = (0,
        if minDur ≤ (clips.map AudioClip.duration_seconds).sum then
          [HistAction.attach_audio_path, HistAction.export_mp3,
            HistAction.publish true]
        else [HistAction.publish false]) := by
  rw [audioHistoryRun_clips, zero_add]
  by_cases h : (clips.map AudioClip.duration_seconds).sum < minDur
  · rw [if_neg (not_le.mpr h)]
    simp [audioHistoryRun, audioHistoryStep, h]
  · rw [if_pos (not_lt.mp h)]
    simp [audioHistoryRun, audioHistoryStep, h]

/-! ## Claim C7: the question listener -/

/-- Claim C7, counterexample: with `min_speech_duration_seconds = 0.2`, an
utterance of duration 0.1 s — shorter than `min_speech_duration_seconds` —
is nevertheless transcribed and enqueued on the questions queue: the source
compares against its own hardcoded `minimum_prompt_duration_seconds = 0.05`
and ignores the configuration value. -/
theorem C7_counterexample :
    (1 : ℚ) / 10 < (2 : ℚ) / 10 ∧
    handle_question_step ((2 : ℚ) / 10) (fun _ => false)
        (fun _ => "hello".toList) ⟨(1 : ℚ) / 10⟩
      = (true, QuestionOutcome.enqueued ("hello".toList)) := by
  with_unfolding_all decide

/-- Claim C7 (amended): every captured utterance shorter than the hardcoded
`minimum_prompt_duration_seconds = 0.05` is discarded — speech-to-text is
not invoked and nothing is put on the questions queue — regardless of the
configured `min_speech_duration_seconds`. -/
theorem C7_short_utterance_discarded (min_speech_duration_seconds : ℚ)
    (isExitStart : List Char → Bool) (stt : AudioClip → List Char)
    (audio : AudioClip) (h : audio.duration_seconds < (5 : ℚ) / 100) :
    handle_question_step min_speech_duration_seconds isExitStart stt audio
      = (false, QuestionOutcome.discarded) := by
  simp [handle_question_step, h]

/-- Witness for the amended Claim C7: a 0.01 s utterance is discarded. -/
theorem C7_short_utterance_discarded_witness :
    handle_question_step ((2 : ℚ) / 10) (fun _ => false) (fun _ => [])
        ⟨(1 : ℚ) / 100⟩
      = (false, QuestionOutcome.discarded) :=
  C7_short_utterance_discarded ((2 : ℚ) / 10) (fun _ => false) (fun _ => [])
    ⟨(1 : ℚ) / 100⟩ (by with_unfolding_all decide)

/-! ## Claim C8: the page-queue filter -/

theorem filterPageLoop_spec (pid : String) (others mine q : List PageQueueItem) :
    filterPageLoop pid others mine q
      = (others ++ q.filter (fun item => !(item.page_id == pid)),
         mine ++ q.filter (fun item => item.page_id == pid)) := by
  induction q generalizing others mine with
  | nil => simp [filterPageLoop]
  | cons item rest ih =>
    by_cases h : item.page_id = pid <;>
      simp [filterPageLoop, List.filter_cons, h, ih]

/-- Claim C8: `filter_page_info_from_queue` returns exactly the queue items
whose `page_id` matches the page, in their original order, leaves exactly
the non-matching items in the queue in their original relative order, and
together the two parts are a permutation of the original queue (no item lost
or duplicated). -/
theorem C8_filter_page_queue (pid : String) (q : List PageQueueItem) :
    (filter_page_info_from_queue pid q).2
        = q.filter (fun item => item.page_id == pid) ∧
    (filter_page_info_from_queue pid q).1
        = q.filter (fun item => !(item.page_id == pid)) ∧
    ((filter_page_info_from_queue pid q).2
        ++ (filter_page_info_from_queue pid q).1).Perm q := by
  have h := filterPageLoop_spec pid [] [] q
  rw [filter_page_info_from_queue, h]
  exact ⟨by simp, by simp,
    by simpa using List.filter_append_perm (fun item => item.page_id == pid) q⟩

end Pyrobbot
